import Mathlib

/-!
Shallow embedding of `trajectory.py` (drone-trajectory repository).

The Python program simulates the ballistic descent of a drone: a
`Projectile` object holds mutable kinematic state and advances it one
fixed time-step at a time (`updateVx`/`updateVy`/`updateX`/`updateY`/`step`),
`startSimulation` drives the step loop until the vertical coordinate drops
below zero, and `WindForceModel` converts a wind speed into a horizontal
force.

Python floats are modelled as elements of a linear ordered field; the
stepping core is stated polymorphically (so it is executable over `ℚ`) and
the entry point `startSimulation`, which applies `cos`/`sin` to the launch
angle, is instantiated at `ℝ`.  Python's `ZeroDivisionError` on
`wind_force / mass` when `mass == 0` is modelled by `Projectile.make`
returning `none`.
-/

/-- The mutable state of the Python `Projectile` object: position, velocity,
acceleration, elapsed time, the `conversion` factor and the two coordinate
history lists `xarr`/`yarr`. -/
structure Projectile (α : Type) where
  x : α
  y : α
  vx : α
  vy : α
  ax : α
  ay : α
  time : α
  conversion : α
  xarr : List α
  yarr : List α

variable {α : Type} [LinearOrderedField α]

/-- `Projectile.updateVx`: `self.vx = self.vx + self.ax*dt; return self.vx`.
Returns the updated state together with the returned value. -/
def Projectile.updateVx (p : Projectile α) (dt : α) : Projectile α × α :=
  let vx := p.vx + p.ax * dt
  ({ p with vx := vx }, vx)

/-- `Projectile.updateVy`: `self.vy = self.vy + self.ay*dt; return self.vy`. -/
def Projectile.updateVy (p : Projectile α) (dt : α) : Projectile α × α :=
  let vy := p.vy + p.ay * dt
  ({ p with vy := vy }, vy)

/-- `Projectile.updateX`: `self.x = self.x + 0.5*(self.vx + self.updateVx(dt))*dt`.
Python evaluates the old `self.x` and old `self.vx` before the call to
`updateVx` mutates the velocity. -/
def Projectile.updateX (p : Projectile α) (dt : α) : Projectile α × α :=
  let r := p.updateVx dt
  let x := p.x + 0.5 * (p.vx + r.2) * dt
  ({ r.1 with x := x }, x)

/-- `Projectile.updateY`: `self.y = self.y + 0.5*(self.vy + self.updateVy(dt))*dt`. -/
def Projectile.updateY (p : Projectile α) (dt : α) : Projectile α × α :=
  let r := p.updateVy dt
  let y := p.y + 0.5 * (p.vy + r.2) * dt
  ({ r.1 with y := y }, y)

/-- `Projectile.step`: appends `updateX(dt) * conversion` to `xarr`, then
`updateY(dt) * conversion` to `yarr`, then advances `time` by `dt`. -/
def Projectile.step (p : Projectile α) (dt : α) : Projectile α :=
  let rx := p.updateX dt
  let p1 := { rx.1 with xarr := rx.1.xarr ++ [rx.2 * rx.1.conversion] }
  let ry := p1.updateY dt
  let p2 := { ry.1 with yarr := ry.1.yarr ++ [ry.2 * ry.1.conversion] }
  { p2 with time := p2.time + dt }

@[simp] theorem Projectile.step_x (p : Projectile α) (dt : α) :
    (p.step dt).x = p.x + 0.5 * (p.vx + (p.vx + p.ax * dt)) * dt := rfl

@[simp] theorem Projectile.step_y (p : Projectile α) (dt : α) :
    (p.step dt).y = p.y + 0.5 * (p.vy + (p.vy + p.ay * dt)) * dt := rfl

@[simp] theorem Projectile.step_vx (p : Projectile α) (dt : α) :
    (p.step dt).vx = p.vx + p.ax * dt := rfl

@[simp] theorem Projectile.step_vy (p : Projectile α) (dt : α) :
    (p.step dt).vy = p.vy + p.ay * dt := rfl

@[simp] theorem Projectile.step_ax (p : Projectile α) (dt : α) :
    (p.step dt).ax = p.ax := rfl

@[simp] theorem Projectile.step_ay (p : Projectile α) (dt : α) :
    (p.step dt).ay = p.ay := rfl

@[simp] theorem Projectile.step_time (p : Projectile α) (dt : α) :
    (p.step dt).time = p.time + dt := rfl

@[simp] theorem Projectile.step_conversion (p : Projectile α) (dt : α) :
    (p.step dt).conversion = p.conversion := rfl

@[simp] theorem Projectile.step_xarr (p : Projectile α) (dt : α) :
    (p.step dt).xarr = p.xarr ++ [(p.step dt).x * p.conversion] := rfl

@[simp] theorem Projectile.step_yarr (p : Projectile α) (dt : α) :
    (p.step dt).yarr = p.yarr ++ [(p.step dt).y * p.conversion] := rfl

/-- `n` successive calls to `Projectile.step` with the same time step. -/
def stepN (dt : α) : ℕ → Projectile α → Projectile α
  | 0, p => p
  | n + 1, p => stepN dt n (p.step dt)

@[simp] theorem stepN_zero (dt : α) (p : Projectile α) : stepN dt 0 p = p := rfl

theorem stepN_succ (dt : α) (n : ℕ) (p : Projectile α) :
    stepN dt (n + 1) p = stepN dt n (p.step dt) := rfl

theorem stepN_ax (dt : α) (n : ℕ) (p : Projectile α) : (stepN dt n p).ax = p.ax := by
  induction n generalizing p with
  | zero => rfl
  | succ n ih => rw [stepN_succ, ih, Projectile.step_ax]

theorem stepN_ay (dt : α) (n : ℕ) (p : Projectile α) : (stepN dt n p).ay = p.ay := by
  induction n generalizing p with
  | zero => rfl
  | succ n ih => rw [stepN_succ, ih, Projectile.step_ay]

theorem stepN_vy (dt : α) (n : ℕ) (p : Projectile α) :
    (stepN dt n p).vy = p.vy + (n : α) * (p.ay * dt) := by
  induction n generalizing p with
  | zero => simp
  | succ n ih =>
    rw [stepN_succ, ih, Projectile.step_vy, Projectile.step_ay]
    push_cast
    ring

/-- The averaged-velocity update is exact for constant acceleration: after `n`
steps the vertical coordinate is the value of the kinematic parabola at
`t = n * dt`. -/
theorem stepN_y (dt : α) (n : ℕ) (p : Projectile α) :
    (stepN dt n p).y = p.y + (n : α) * (p.vy * dt) + (n : α) ^ 2 * (p.ay * dt ^ 2 / 2) := by
  induction n generalizing p with
  | zero => simp
  | succ n ih =>
    rw [stepN_succ, ih, Projectile.step_y, Projectile.step_vy, Projectile.step_ay]
    push_cast
    ring

theorem stepN_xarr_length (dt : α) (n : ℕ) (p : Projectile α) :
    (stepN dt n p).xarr.length = p.xarr.length + n := by
  induction n generalizing p with
  | zero => rfl
  | succ n ih =>
    rw [stepN_succ, ih, Projectile.step_xarr]
    simp
    omega

theorem stepN_yarr_length (dt : α) (n : ℕ) (p : Projectile α) :
    (stepN dt n p).yarr.length = p.yarr.length + n := by
  induction n generalizing p with
  | zero => rfl
  | succ n ih =>
    rw [stepN_succ, ih, Projectile.step_yarr]
    simp
    omega

/-- With a strictly negative vertical acceleration and a positive time step,
some iterate of `step` drives the vertical coordinate below zero. -/
theorem exists_stepN_y_neg [Archimedean α] (dt : α) (hdt : 0 < dt)
    (p : Projectile α) (hay : p.ay < 0) : ∃ n : ℕ, (stepN dt n p).y < 0 := by
  have hc : 0 < -(p.ay * dt ^ 2 / 2) := by
    have h2 : 0 < dt ^ 2 := pow_pos hdt 2
    nlinarith
  obtain ⟨N, hN⟩ := exists_nat_gt (max 1 ((|p.y| + |p.vy * dt|) / (-(p.ay * dt ^ 2 / 2))))
  refine ⟨N, ?_⟩
  rw [stepN_y]
  have hN1 : (1 : α) ≤ (N : α) := le_of_lt (lt_of_le_of_lt (le_max_left _ _) hN)
  have h2 : (|p.y| + |p.vy * dt|) / (-(p.ay * dt ^ 2 / 2)) < (N : α) :=
    lt_of_le_of_lt (le_max_right _ _) hN
  have h3 : |p.y| + |p.vy * dt| < (N : α) * (-(p.ay * dt ^ 2 / 2)) :=
    (div_lt_iff₀ hc).mp h2
  have hy := le_abs_self p.y
  have hb := le_abs_self (p.vy * dt)
  have hya := abs_nonneg p.y
  have hba := abs_nonneg (p.vy * dt)
  nlinarith [mul_le_mul_of_nonneg_left hb (le_trans zero_le_one hN1),
    mul_le_mul_of_nonneg_left hy (le_trans zero_le_one hN1),
    mul_lt_mul_of_pos_left h3 (lt_of_lt_of_le zero_lt_one hN1)]

/-- The `while projectile.y >= 0: projectile.step(dt)` loop, run for at most
`fuel` iterations. -/
def loopFuel (dt : α) : ℕ → Projectile α → Projectile α
  | 0, p => p
  | n + 1, p => if 0 ≤ p.y then loopFuel dt n (p.step dt) else p

@[simp] theorem loopFuel_zero (dt : α) (p : Projectile α) : loopFuel dt 0 p = p := rfl

theorem loopFuel_succ (dt : α) (n : ℕ) (p : Projectile α) :
    loopFuel dt (n + 1) p = if 0 ≤ p.y then loopFuel dt n (p.step dt) else p := rfl

/-- Either the fueled loop has already exited, or no exit happened and it
agrees with plain iteration. -/
theorem loopFuel_y_neg_or_eq_stepN (dt : α) (n : ℕ) (p : Projectile α) :
    (loopFuel dt n p).y < 0 ∨ loopFuel dt n p = stepN dt n p := by
  induction n generalizing p with
  | zero => exact Or.inr rfl
  | succ n ih =>
    rw [loopFuel_succ, stepN_succ]
    by_cases h : 0 ≤ p.y
    · rw [if_pos h]
      exact ih (p.step dt)
    · rw [if_neg h]
      exact Or.inl (by simpa using lt_of_not_le h)

/-- The loop exits within some finite amount of fuel. -/
theorem exists_loopFuel_exit [Archimedean α] (dt : α) (hdt : 0 < dt)
    (p : Projectile α) (hay : p.ay < 0) : ∃ n : ℕ, (loopFuel dt n p).y < 0 := by
  obtain ⟨m, hm⟩ := exists_stepN_y_neg dt hdt p hay
  rcases loopFuel_y_neg_or_eq_stepN dt m p with h | h
  · exact ⟨m, h⟩
  · exact ⟨m, by rwa [h]⟩

open Classical in
/-- The integration loop of `startSimulation`:
`while projectile.y >= 0: projectile.step(dt)`, defined by well-founded
recursion.  Termination holds because the vertical acceleration is strictly
negative and the time step is positive (in `startSimulation` they are the
constants `-9.8` and `0.05`). -/
def integrationLoop [Archimedean α] (dt : α) (hdt : 0 < dt)
    (p : Projectile α) (hay : p.ay < 0) : Projectile α :=
  if h : 0 ≤ p.y then
    integrationLoop dt hdt (p.step dt) (by rw [Projectile.step_ay]; exact hay)
  else p
termination_by Nat.find (exists_stepN_y_neg dt hdt p hay)
decreasing_by
  have hay' : (p.step dt).ay < 0 := by rw [Projectile.step_ay]; exact hay
  have hspec := Nat.find_spec (exists_stepN_y_neg dt hdt p hay)
  have hk0 : Nat.find (exists_stepN_y_neg dt hdt p hay) ≠ 0 := by
    intro h0
    rw [h0] at hspec
    exact absurd hspec (not_lt.mpr (by simpa using h))
  obtain ⟨m, hm⟩ := Nat.exists_eq_succ_of_ne_zero hk0
  have hQ : (stepN dt m (p.step dt)).y < 0 := by
    rw [hm] at hspec
    exact hspec
  have hle : Nat.find (exists_stepN_y_neg dt hdt (p.step dt) hay') ≤ m :=
    Nat.find_min' (exists_stepN_y_neg dt hdt (p.step dt) hay') hQ
  rw [hm]
  exact Nat.lt_succ_of_le hle

theorem integrationLoop_unfold [Archimedean α] (dt : α) (hdt : 0 < dt)
    (p : Projectile α) (hay : p.ay < 0) :
    integrationLoop dt hdt p hay =
      if 0 ≤ p.y then
        integrationLoop dt hdt (p.step dt) (by rw [Projectile.step_ay]; exact hay)
      else p := by
  rw [integrationLoop]
  by_cases h : 0 ≤ p.y
  · rw [dif_pos h, if_pos h]
  · rw [dif_neg h, if_neg h]

/-- Once some amount of fuel makes the fueled loop exit, the while loop
computes exactly that value. -/
theorem integrationLoop_eq_loopFuel [Archimedean α] (dt : α) (hdt : 0 < dt) :
    ∀ (n : ℕ) (p : Projectile α) (hay : p.ay < 0), (loopFuel dt n p).y < 0 →
      integrationLoop dt hdt p hay = loopFuel dt n p := by
  intro n
  induction n with
  | zero =>
    intro p hay hn
    rw [loopFuel_zero] at hn
    rw [integrationLoop_unfold, if_neg (not_le.mpr hn), loopFuel_zero]
  | succ n ih =>
    intro p hay hn
    rw [integrationLoop_unfold]
    by_cases h : 0 ≤ p.y
    · rw [loopFuel_succ, if_pos h] at hn
      rw [if_pos h, loopFuel_succ, if_pos h]
      exact ih (p.step dt) (by rw [Projectile.step_ay]; exact hay) hn
    · rw [if_neg h, loopFuel_succ, if_neg h]

/-- Any invariant preserved by `step` on states with `0 ≤ y` is preserved by
the fueled loop. -/
theorem loopFuel_inv (dt : α) (Inv : Projectile α → Prop)
    (hstep : ∀ q, Inv q → 0 ≤ q.y → Inv (q.step dt)) :
    ∀ (n : ℕ) (p : Projectile α), Inv p → Inv (loopFuel dt n p) := by
  intro n
  induction n with
  | zero => intro p hp; exact hp
  | succ n ih =>
    intro p hp
    rw [loopFuel_succ]
    by_cases h : 0 ≤ p.y
    · rw [if_pos h]
      exact ih (p.step dt) (hstep p hp h)
    · rw [if_neg h]
      exact hp

/-- Master lemma for the while loop: it exits with `y < 0` and preserves every
step invariant. -/
theorem integrationLoop_spec [Archimedean α] (dt : α) (hdt : 0 < dt)
    (p : Projectile α) (hay : p.ay < 0) (Inv : Projectile α → Prop)
    (hstep : ∀ q, Inv q → 0 ≤ q.y → Inv (q.step dt)) (hp : Inv p) :
    Inv (integrationLoop dt hdt p hay) ∧ (integrationLoop dt hdt p hay).y < 0 := by
  obtain ⟨n, hn⟩ := exists_loopFuel_exit dt hdt p hay
  rw [integrationLoop_eq_loopFuel dt hdt n p hay hn]
  exact ⟨loopFuel_inv dt Inv hstep n p hp, hn⟩

/-- Python's `math.radians`: degrees to radians. -/
noncomputable def radians (x : ℝ) : ℝ := x * Real.pi / 180

/-- The assignments of `Projectile.__init__` (after the division
`wind_force / mass` has succeeded, i.e. `mass ≠ 0`). -/
noncomputable def Projectile.init (x0 y0 v angle mass wind_force : ℝ) : Projectile ℝ :=
  { x := x0
    y := y0
    vx := v * Real.cos (radians angle)
    vy := v * Real.sin (radians angle)
    ax := wind_force / mass
    ay := -9.8
    time := 0
    conversion := 1.0
    xarr := [x0 * 1.0]
    yarr := [y0 * 1.0] }

@[simp] theorem Projectile.init_x (x0 y0 v angle mass wf : ℝ) :
    (Projectile.init x0 y0 v angle mass wf).x = x0 := rfl

@[simp] theorem Projectile.init_y (x0 y0 v angle mass wf : ℝ) :
    (Projectile.init x0 y0 v angle mass wf).y = y0 := rfl

@[simp] theorem Projectile.init_vx (x0 y0 v angle mass wf : ℝ) :
    (Projectile.init x0 y0 v angle mass wf).vx = v * Real.cos (radians angle) := rfl

@[simp] theorem Projectile.init_vy (x0 y0 v angle mass wf : ℝ) :
    (Projectile.init x0 y0 v angle mass wf).vy = v * Real.sin (radians angle) := rfl

@[simp] theorem Projectile.init_ax (x0 y0 v angle mass wf : ℝ) :
    (Projectile.init x0 y0 v angle mass wf).ax = wf / mass := rfl

@[simp] theorem Projectile.init_ay (x0 y0 v angle mass wf : ℝ) :
    (Projectile.init x0 y0 v angle mass wf).ay = -9.8 := rfl

@[simp] theorem Projectile.init_conversion (x0 y0 v angle mass wf : ℝ) :
    (Projectile.init x0 y0 v angle mass wf).conversion = 1.0 := rfl

@[simp] theorem Projectile.init_xarr (x0 y0 v angle mass wf : ℝ) :
    (Projectile.init x0 y0 v angle mass wf).xarr = [x0 * 1.0] := rfl

@[simp] theorem Projectile.init_yarr (x0 y0 v angle mass wf : ℝ) :
    (Projectile.init x0 y0 v angle mass wf).yarr = [y0 * 1.0] := rfl

/-- The full `Projectile(...)` constructor.  Python evaluates
`wind_force / mass` unconditionally, and float division by zero raises
`ZeroDivisionError`; a raised exception is modelled as `none`. -/
noncomputable def Projectile.make (x0 y0 v angle mass wind_force : ℝ) :
    Option (Projectile ℝ) :=
  if mass = 0 then none else some (Projectile.init x0 y0 v angle mass wind_force)

/-- `startSimulation`: construct the projectile (which can raise on
`mass == 0`), take one unconditional step with `dt = 0.05`, run the
integration loop, and return `(projectile.xarr, projectile.yarr)`. -/
noncomputable def startSimulation (x0 y0 velocity angle : ℝ)
    (mass wind_force : ℝ) : Option (List ℝ × List ℝ) :=
  if mass = 0 then none
  else
    let q := integrationLoop (0.05 : ℝ) (by norm_num)
      ((Projectile.init x0 y0 velocity angle mass wind_force).step 0.05)
      (by rw [Projectile.step_ay, Projectile.init_ay]; norm_num)
    some (q.xarr, q.yarr)

/-- Workhorse lemma: for any step invariant that holds after the first
unconditional step, a successful run returns the arrays of a final state
satisfying the invariant and lying strictly below ground. -/
theorem startSimulation_spec (x0 y0 v angle mass wf : ℝ) (hm : mass ≠ 0)
    (Inv : Projectile ℝ → Prop)
    (hstep : ∀ q, Inv q → 0 ≤ q.y → Inv (q.step 0.05))
    (hstart : Inv ((Projectile.init x0 y0 v angle mass wf).step 0.05)) :
    ∃ q : Projectile ℝ, startSimulation x0 y0 v angle mass wf = some (q.xarr, q.yarr) ∧
      Inv q ∧ q.y < 0 := by
  rw [startSimulation, if_neg hm]
  exact ⟨_, rfl,
    integrationLoop_spec (0.05 : ℝ) (by norm_num) _ _ Inv hstep hstart⟩

/-- The `WindForceModel` class: `area = h * w`, plus the stored (but unused)
`mass` and the drag coefficient `cd`. -/
structure WindForceModel (α : Type) where
  area : α
  mass : α
  cd : α

/-- Class attribute `psqft_to_nsqm = 47.8803` (pounds-per-square-foot to
newtons-per-square-metre). -/
def WindForceModel.psqft_to_nsqm : α := 47.8803

/-- Class attribute `mps_to_mph = 2.23694` (metres-per-second to
miles-per-hour). -/
def WindForceModel.mps_to_mph : α := 2.23694

/-- `WindForceModel.__init__(cd, h, w, mass)`. -/
def WindForceModel.init (cd h w mass : α) : WindForceModel α :=
  { area := h * w, mass := mass, cd := cd }

/-- `WindForceModel.getWindForce(velocity)`. -/
def WindForceModel.getWindForce (m : WindForceModel α) (velocity : α) : α :=
  let velocity_mph := WindForceModel.mps_to_mph * velocity
  let P := 0.00256 * velocity_mph * velocity_mph * WindForceModel.psqft_to_nsqm
  m.area * P * m.cd

theorem getWindForce_eq (m : WindForceModel α) (v : α) :
    m.getWindForce v =
      m.area * (0.00256 * (2.23694 * v) * (2.23694 * v) * 47.8803) * m.cd := rfl

/-- C2: each call to `Projectile.step(dt)` performs exactly one fixed-size step
per axis: it computes the new velocity first, `v_new = v_old + a*dt`, then the
new position from the average of old and new velocity,
`p_new = p_old + 0.5*(v_old + v_new)*dt`, and this position update equals the
constant-acceleration closed form `p_old + v_old*dt + 0.5*a*dt^2` for that
single step. -/
theorem step_averaged_velocity_exact (p : Projectile ℝ) (dt : ℝ) :
    (p.step dt).vx = p.vx + p.ax * dt ∧
    (p.step dt).vy = p.vy + p.ay * dt ∧
    (p.step dt).x = p.x + 0.5 * (p.vx + (p.step dt).vx) * dt ∧
    (p.step dt).y = p.y + 0.5 * (p.vy + (p.step dt).vy) * dt ∧
    (p.step dt).x = p.x + p.vx * dt + 0.5 * p.ax * dt ^ 2 ∧
    (p.step dt).y = p.y + p.vy * dt + 0.5 * p.ay * dt ^ 2 := by
  refine ⟨rfl, rfl, rfl, rfl, ?_, ?_⟩ <;>
    · simp only [Projectile.step_x, Projectile.step_y]
      ring

/-- C3: `getWindForce(v)` returns `area * P * cd` with
`P = 0.00256 * (2.23694 * v)^2 * 47.8803`; the result is `0` at `v = 0` and is
non-negative for non-negative `v` (given the physical model data
`0 ≤ area`, `0 ≤ cd`); the computation is a pure function. -/
theorem getWindForce_formula (m : WindForceModel ℝ) (v : ℝ)
    (harea : 0 ≤ m.area) (hcd : 0 ≤ m.cd) :
    m.getWindForce v = m.area * (0.00256 * (2.23694 * v) ^ 2 * 47.8803) * m.cd ∧
    m.getWindForce 0 = 0 ∧
    (0 ≤ v → 0 ≤ m.getWindForce v) := by
  refine ⟨?_, ?_, fun _ => ?_⟩
  · rw [getWindForce_eq]; ring
  · rw [getWindForce_eq]; ring
  · rw [getWindForce_eq]
    nlinarith [mul_self_nonneg (2.23694 * v), mul_nonneg harea hcd]

theorem getWindForce_formula_witness :
    (0 ≤ (WindForceModel.init (1.05 : ℝ) 0.1 0.15 1.25).area ∧
      0 ≤ (WindForceModel.init (1.05 : ℝ) 0.1 0.15 1.25).cd) ∧
    (WindForceModel.init (1.05 : ℝ) 0.1 0.15 1.25).getWindForce 0 = 0 :=
  ⟨⟨by norm_num [WindForceModel.init], by norm_num [WindForceModel.init]⟩,
    (getWindForce_formula (WindForceModel.init (1.05 : ℝ) 0.1 0.15 1.25) 0
      (by norm_num [WindForceModel.init]) (by norm_num [WindForceModel.init])).2.1⟩

/-- C8: `getWindForce` is an even, non-negative function of the velocity over
all real inputs (given `0 ≤ area` and `0 ≤ cd`), because the velocity enters
only through its square. -/
theorem getWindForce_even_nonneg (m : WindForceModel ℝ) (v : ℝ)
    (harea : 0 ≤ m.area) (hcd : 0 ≤ m.cd) :
    m.getWindForce (-v) = m.getWindForce v ∧ 0 ≤ m.getWindForce v := by
  constructor
  · rw [getWindForce_eq, getWindForce_eq]; ring
  · rw [getWindForce_eq]
    nlinarith [mul_self_nonneg (2.23694 * v), mul_nonneg harea hcd]

theorem getWindForce_even_nonneg_witness :
    (WindForceModel.init (1.05 : ℝ) 0.1 0.15 1.25).getWindForce (-3) =
      (WindForceModel.init (1.05 : ℝ) 0.1 0.15 1.25).getWindForce 3 :=
  (getWindForce_even_nonneg (WindForceModel.init (1.05 : ℝ) 0.1 0.15 1.25) 3
    (by norm_num [WindForceModel.init]) (by norm_num [WindForceModel.init])).1

/-- C9: the force returned by `getWindForce` does not depend on the stored
`mass`: two models built from the same `cd`, `h`, `w` and different masses
return identical forces for every velocity. -/
theorem getWindForce_mass_independent (cd h w m1 m2 v : ℝ) :
    (WindForceModel.init cd h w m1).getWindForce v =
      (WindForceModel.init cd h w m2).getWindForce v := rfl

/-- C7: the acceleration components are fixed for the lifetime of a run:
`updateVx`/`updateVy`/`updateX`/`updateY`/`step` leave `ax` and `ay`
unchanged, and from a successful construction (`mass ≠ 0`) through every step
`ax = wind_force / mass` and `ay = -9.8`. -/
theorem acceleration_constant (p : Projectile ℝ) (dt x0 y0 v angle mass wf : ℝ)
    (hm : mass ≠ 0) :
    ((p.updateVx dt).1.ax = p.ax ∧ (p.updateVy dt).1.ax = p.ax ∧
      (p.updateX dt).1.ax = p.ax ∧ (p.updateY dt).1.ax = p.ax ∧
      (p.step dt).ax = p.ax) ∧
    ((p.updateVx dt).1.ay = p.ay ∧ (p.updateVy dt).1.ay = p.ay ∧
      (p.updateX dt).1.ay = p.ay ∧ (p.updateY dt).1.ay = p.ay ∧
      (p.step dt).ay = p.ay) ∧
    (∀ n : ℕ,
      (stepN (0.05 : ℝ) n (Projectile.init x0 y0 v angle mass wf)).ax = wf / mass ∧
      (stepN (0.05 : ℝ) n (Projectile.init x0 y0 v angle mass wf)).ay = -9.8) := by
  refine ⟨⟨rfl, rfl, rfl, rfl, rfl⟩, ⟨rfl, rfl, rfl, rfl, rfl⟩, fun n => ⟨?_, ?_⟩⟩
  · rw [stepN_ax, Projectile.init_ax]
  · rw [stepN_ay, Projectile.init_ay]

theorem acceleration_constant_witness :
    ((1.25 : ℝ) ≠ 0) ∧
    (stepN (0.05 : ℝ) 3 (Projectile.init 0 10 7 0 1.25 2)).ax = 2 / 1.25 ∧
    (stepN (0.05 : ℝ) 3 (Projectile.init 0 10 7 0 1.25 2)).ay = -9.8 :=
  ⟨by norm_num,
    (acceleration_constant (Projectile.init 0 10 7 0 1.25 2) 0.05 0 10 7 0 1.25 2
      (by norm_num)).2.2 3⟩

/-- C4 counterexample: with `wind_force = 0` and `mass = 0` the run does NOT
succeed — Python evaluates `wind_force / mass` unconditionally and
`0.0 / 0.0` raises `ZeroDivisionError`, so both the constructor and
`startSimulation` fail (modelled as `none`). -/
theorem startSimulation_zero_mass_fails :
    startSimulation 0 10 7 0 0 0 = none ∧ Projectile.make 0 10 7 0 0 0 = none := by
  constructor
  · rw [startSimulation, if_pos rfl]
  · rw [Projectile.make, if_pos rfl]

/-- C4 (amended): a `wind_force = 0` run succeeds for every `mass ≠ 0`, with
horizontal acceleration `0 / mass = 0`; at `mass = 0` the division is still
evaluated and the construction fails, zero force notwithstanding. -/
theorem startSimulation_zero_force (x0 y0 v angle mass : ℝ) (hm : mass ≠ 0) :
    (∃ r, startSimulation x0 y0 v angle mass 0 = some r) ∧
    (Projectile.init x0 y0 v angle mass 0).ax = 0 := by
  constructor
  · obtain ⟨q, hq, -, -⟩ := startSimulation_spec x0 y0 v angle mass 0 hm
      (fun _ => True) (fun _ _ _ => trivial) trivial
    exact ⟨_, hq⟩
  · rw [Projectile.init_ax, zero_div]

theorem startSimulation_zero_force_witness :
    ((1.25 : ℝ) ≠ 0) ∧
    (∃ r, startSimulation 0 10 7 0 1.25 0 = some r) ∧
    (Projectile.init 0 10 7 0 1.25 0).ax = 0 :=
  ⟨by norm_num, startSimulation_zero_force 0 10 7 0 1.25 (by norm_num)⟩

/-- C1: for every run whose construction succeeds (`mass ≠ 0`) and whose
initial height satisfies `y0 ≥ 0`, the returned y-sequence has a strictly
negative last element and every element before the last is `≥ 0`: the loop
exits on the first post-step sample with `y < 0`, recording exactly one
overshoot sample past ground level. -/
theorem startSimulation_overshoot (x0 y0 v angle mass wf : ℝ)
    (hm : mass ≠ 0) (hy0 : 0 ≤ y0) :
    ∃ xs ys : List ℝ, startSimulation x0 y0 v angle mass wf = some (xs, ys) ∧
      ∃ l t, ys = l ++ [t] ∧ t < 0 ∧ ∀ a ∈ l, 0 ≤ a := by
  have hspec := startSimulation_spec x0 y0 v angle mass wf hm
    (fun q => q.conversion = 1 ∧ ∃ l, q.yarr = l ++ [q.y] ∧ ∀ a ∈ l, 0 ≤ a)
    ?_ ?_
  · obtain ⟨q, hq, ⟨-, l, hl, hall⟩, hneg⟩ := hspec
    exact ⟨q.xarr, q.yarr, hq, l, q.y, hl, hneg, hall⟩
  · rintro q ⟨hc, l, hl, hall⟩ hy
    refine ⟨by rw [Projectile.step_conversion]; exact hc, l ++ [q.y], ?_, ?_⟩
    · rw [Projectile.step_yarr, hl, hc, mul_one, List.append_assoc]
    · intro a ha
      rcases List.mem_append.mp ha with h | h
      · exact hall a h
      · rw [List.mem_singleton.mp h]
        exact hy
  · refine ⟨by norm_num, [y0 * 1.0], ?_, ?_⟩
    · rw [Projectile.step_yarr, Projectile.init_yarr, Projectile.init_conversion]
      norm_num
    · intro a ha
      rw [List.mem_singleton.mp ha]
      nlinarith

theorem startSimulation_overshoot_witness :
    ((1.25 : ℝ) ≠ 0) ∧ (0 : ℝ) ≤ 10 ∧
    (∃ xs ys : List ℝ, startSimulation 0 10 7 0 1.25 0 = some (xs, ys) ∧
      ∃ l t, ys = l ++ [t] ∧ t < 0 ∧ ∀ a ∈ l, 0 ≤ a) :=
  ⟨by norm_num, by norm_num,
    startSimulation_overshoot 0 10 7 0 1.25 0 (by norm_num) (by norm_num)⟩

/-- C5: `startSimulation` terminates whenever the construction succeeds
(`mass ≠ 0`): the `while y >= 0` loop exits after finitely many iterations
(some fuel `n` already reaches `y < 0`), and the returned arrays are those of
the state at loop exit.  Termination rests only on `ay = -9.8 < 0` and
`dt = 0.05 > 0`, for every initial position, speed, angle and wind force. -/
theorem startSimulation_terminates (x0 y0 v angle mass wf : ℝ) (hm : mass ≠ 0) :
    ∃ n : ℕ,
      (loopFuel (0.05 : ℝ) n ((Projectile.init x0 y0 v angle mass wf).step 0.05)).y < 0 ∧
      startSimulation x0 y0 v angle mass wf =
        some ((loopFuel (0.05 : ℝ) n ((Projectile.init x0 y0 v angle mass wf).step 0.05)).xarr,
          (loopFuel (0.05 : ℝ) n ((Projectile.init x0 y0 v angle mass wf).step 0.05)).yarr) := by
  have hay : ((Projectile.init x0 y0 v angle mass wf).step 0.05).ay < 0 := by
    rw [Projectile.step_ay, Projectile.init_ay]
    norm_num
  obtain ⟨n, hn⟩ := exists_loopFuel_exit (0.05 : ℝ) (by norm_num) _ hay
  refine ⟨n, hn, ?_⟩
  rw [startSimulation, if_neg hm,
    integrationLoop_eq_loopFuel (0.05 : ℝ) (by norm_num) n _ hay hn]

theorem startSimulation_terminates_witness :
    ((1.25 : ℝ) ≠ 0) ∧
    ∃ n : ℕ,
      (loopFuel (0.05 : ℝ) n ((Projectile.init 0 10 7 0 1.25 0).step 0.05)).y < 0 ∧
      startSimulation 0 10 7 0 1.25 0 =
        some ((loopFuel (0.05 : ℝ) n ((Projectile.init 0 10 7 0 1.25 0).step 0.05)).xarr,
          (loopFuel (0.05 : ℝ) n ((Projectile.init 0 10 7 0 1.25 0).step 0.05)).yarr) :=
  ⟨by norm_num, startSimulation_terminates 0 10 7 0 1.25 0 (by norm_num)⟩

/-- C6: the x-history and y-history always have equal length; after `N` calls
to `step` that length is `N + 1` (the seed entry plus one appended pair per
step); consequently a successful run returns two parallel sequences of equal
length, and of length at least `2` since one step is always performed before
the termination condition is first tested. -/
theorem history_lengths (x0 y0 v angle mass wf : ℝ) (hm : mass ≠ 0) :
    (∀ n : ℕ,
      (stepN (0.05 : ℝ) n (Projectile.init x0 y0 v angle mass wf)).xarr.length = n + 1 ∧
      (stepN (0.05 : ℝ) n (Projectile.init x0 y0 v angle mass wf)).yarr.length = n + 1) ∧
    ∃ xs ys : List ℝ, startSimulation x0 y0 v angle mass wf = some (xs, ys) ∧
      xs.length = ys.length ∧ 2 ≤ xs.length := by
  constructor
  · intro n
    rw [stepN_xarr_length, stepN_yarr_length, Projectile.init_xarr, Projectile.init_yarr]
    constructor <;> simp [Nat.add_comm]
  · have hspec := startSimulation_spec x0 y0 v angle mass wf hm
      (fun q => q.xarr.length = q.yarr.length ∧ 2 ≤ q.xarr.length) ?_ ?_
    · obtain ⟨q, hq, ⟨hlen, h2⟩, -⟩ := hspec
      exact ⟨q.xarr, q.yarr, hq, hlen, h2⟩
    · rintro q ⟨hlen, h2⟩ -
      constructor
      · rw [Projectile.step_xarr, Projectile.step_yarr]
        simp [hlen]
      · rw [Projectile.step_xarr]
        simp
        omega
    · constructor
      · rw [Projectile.step_xarr, Projectile.step_yarr, Projectile.init_xarr,
          Projectile.init_yarr]
        simp
      · rw [Projectile.step_xarr, Projectile.init_xarr]
        simp

theorem history_lengths_witness :
    ((1.25 : ℝ) ≠ 0) ∧
    (stepN (0.05 : ℝ) 4 (Projectile.init 0 10 7 0 1.25 0)).xarr.length = 4 + 1 ∧
    (stepN (0.05 : ℝ) 4 (Projectile.init 0 10 7 0 1.25 0)).yarr.length = 4 + 1 :=
  ⟨by norm_num, (history_lengths 0 10 7 0 1.25 0 (by norm_num)).1 4⟩

/-- C10: for every run with `mass > 0`, `wind_force ≥ 0` and positive initial
horizontal velocity `v * cos(radians(angle)) > 0`, the returned x-sequence is
strictly increasing: `ax = wind_force / mass ≥ 0` keeps `vx` at or above its
positive initial value, so every step adds a strictly positive increment. -/
theorem startSimulation_x_strict_mono (x0 y0 v angle mass wf : ℝ)
    (hmass : 0 < mass) (hwf : 0 ≤ wf) (hvx : 0 < v * Real.cos (radians angle)) :
    ∃ xs ys : List ℝ, startSimulation x0 y0 v angle mass wf = some (xs, ys) ∧
      xs.Chain' (· < ·) := by
  have hspec := startSimulation_spec x0 y0 v angle mass wf (ne_of_gt hmass)
    (fun q => q.conversion = 1 ∧ 0 ≤ q.ax ∧ 0 < q.vx ∧
      ∃ l, q.xarr = l ++ [q.x] ∧ (l ++ [q.x]).Chain' (· < ·)) ?_ ?_
  · obtain ⟨q, hq, ⟨-, -, -, l, hl, hchain⟩, -⟩ := hspec
    refine ⟨q.xarr, q.yarr, hq, ?_⟩
    rw [hl]
    exact hchain
  · rintro q ⟨hc, hax, hvxq, l, hl, hchain⟩ -
    have hxlt : q.x < (q.step 0.05).x := by
      rw [Projectile.step_x]
      nlinarith
    refine ⟨by rw [Projectile.step_conversion]; exact hc,
      by rw [Projectile.step_ax]; exact hax,
      by rw [Projectile.step_vx]; nlinarith, l ++ [q.x], ?_, ?_⟩
    · rw [Projectile.step_xarr, hl, hc, mul_one, List.append_assoc]
    · refine List.chain'_append.mpr ⟨hchain, List.chain'_singleton _, ?_⟩
      intro a ha b hb
      rw [List.getLast?_concat] at ha
      have ha' : q.x = a := by simpa using ha
      have hb' : (q.step 0.05).x = b := by simpa using hb
      rw [← ha', ← hb']
      exact hxlt
  · have hax0 : (0 : ℝ) ≤ wf / mass := div_nonneg hwf (le_of_lt hmass)
    have hx1 : x0 * 1.0 < ((Projectile.init x0 y0 v angle mass wf).step 0.05).x := by
      rw [Projectile.step_x, Projectile.init_x, Projectile.init_vx, Projectile.init_ax]
      nlinarith
    refine ⟨by norm_num, ?_, ?_, [x0 * 1.0], ?_, ?_⟩
    · rw [Projectile.step_ax, Projectile.init_ax]
      exact hax0
    · rw [Projectile.step_vx, Projectile.init_vx, Projectile.init_ax]
      nlinarith
    · rw [Projectile.step_xarr, Projectile.init_xarr, Projectile.init_conversion]
      norm_num
    · rw [List.singleton_append, List.chain'_pair]
      exact hx1

theorem startSimulation_x_strict_mono_witness :
    ((0 : ℝ) < 1.25 ∧ (0 : ℝ) ≤ 0 ∧ (0 : ℝ) < 7 * Real.cos (radians 0)) ∧
    ∃ xs ys : List ℝ, startSimulation 0 10 7 0 1.25 0 = some (xs, ys) ∧
      xs.Chain' (· < ·) :=
  ⟨⟨by norm_num, by norm_num, by norm_num [radians, Real.cos_zero]⟩,
    startSimulation_x_strict_mono 0 10 7 0 1.25 0 (by norm_num) (by norm_num)
      (by norm_num [radians, Real.cos_zero])⟩
